/-
Verification of the tee-time booking backend (src/main.py) against its
natural-language specification.

Modelling conventions (shallow embedding):
* A `datetime` is a natural number of minutes since an arbitrary epoch;
  a calendar date `d` corresponds to the minute range
  `[d * 1440, (d + 1) * 1440)`, so `datetime.combine(d, t)` for a
  time-of-day `t` (in minutes after midnight) is `d * 1440 + t`.
* The global dict `BOOKINGS` (keyed by `booking_id`, insertion ordered,
  as Python dicts are) is modelled as a `List Booking` in insertion
  order; `BOOKINGS[k] = v` is `dictInsert`, which replaces in place when
  the key is present and appends otherwise, exactly like a dict write.
* `HTTPException` outcomes are modelled by the `ApiError` type.  The
  source's `get_availability` dereferences the undefined name
  `all_slots` (main.py line 123), which in Python raises a `NameError`
  before any filtering happens; this is the `ApiError.nameError` value.
* Python f-string ids `f"BOOK-{n}"` are `"BOOK-" ++ Nat.repr n`.

The first section proves that `Nat.repr` is injective (by decoding the
decimal digit string back to the number), which the source relies on
implicitly: distinct counters give distinct dict keys, so the dict write
in `create_booking` never overwrites an existing booking.
-/
import Mathlib

set_option linter.unusedVariables false

/-! ### Injectivity of `Nat.repr` -/

/-- Decode a decimal digit character produced by `Nat.digitChar`. -/
def decChar (c : Char) : ℕ := c.toNat - 48

/-- Fold a digit-character list back into a number, most significant first. -/
def valAcc (l : List Char) (acc : ℕ) : ℕ :=
  l.foldl (fun a c => a * 10 + decChar c) acc

theorem decChar_digitChar : ∀ n < 10, decChar (Nat.digitChar n) = n := by decide

theorem valAcc_append (l₁ l₂ : List Char) (acc : ℕ) :
    valAcc (l₁ ++ l₂) acc = valAcc l₂ (valAcc l₁ acc) := by
  simp [valAcc, List.foldl_append]

theorem toDigitsCore_append (f n : ℕ) (l : List Char) :
    Nat.toDigitsCore 10 f n l = Nat.toDigitsCore 10 f n [] ++ l := by
  induction f generalizing n l with
  | zero => simp [Nat.toDigitsCore]
  | succ f ih =>
    simp only [Nat.toDigitsCore]
    by_cases h : n / 10 = 0
    · simp [h]
    · simp only [h, if_false]
      rw [ih (n / 10) (Nat.digitChar (n % 10) :: l),
        ih (n / 10) (Nat.digitChar (n % 10) :: [])]
      simp

theorem toDigitsCore_fuel (f n : ℕ) (h : n < f) :
    Nat.toDigitsCore 10 f n [] = Nat.toDigitsCore 10 (n + 1) n [] := by
  induction n using Nat.strong_induction_on generalizing f with
  | _ n ih =>
    obtain ⟨f', rfl⟩ : ∃ f', f = f' + 1 := ⟨f - 1, by omega⟩
    simp only [Nat.toDigitsCore]
    by_cases hd : n / 10 = 0
    · simp [hd]
    · simp only [hd, if_false]
      have hlt : n / 10 < n := by omega
      rw [toDigitsCore_append f' (n / 10), toDigitsCore_append n (n / 10),
        ih (n / 10) hlt f' (by omega), ih (n / 10) hlt n (by omega)]

theorem valAcc_toDigits (n : ℕ) : ∀ acc : ℕ,
    valAcc (Nat.toDigits 10 n) acc = acc * 10 ^ (Nat.toDigits 10 n).length + n := by
  induction n using Nat.strong_induction_on with
  | _ n ih =>
    intro acc
    by_cases hd : n / 10 = 0
    · have hn : n < 10 := by omega
      simp [Nat.toDigits, Nat.toDigitsCore, hd, valAcc,
        decChar_digitChar (n % 10) (by omega)]
      omega
    · have hlt : n / 10 < n := by omega
      have hexp : Nat.toDigits 10 n = Nat.toDigits 10 (n / 10) ++ [Nat.digitChar (n % 10)] := by
        simp only [Nat.toDigits, Nat.toDigitsCore, hd, if_false]
        rw [toDigitsCore_append n (n / 10), toDigitsCore_fuel n (n / 10) (by omega)]
        simp only [Nat.toDigitsCore]
      rw [hexp, valAcc_append, ih (n / 10) hlt acc]
      simp [valAcc, List.length_append, decChar_digitChar (n % 10) (by omega), pow_succ]
      ring_nf
      omega

theorem repr_injective : Function.Injective Nat.repr := by
  intro a b h
  have hl : Nat.toDigits 10 a = Nat.toDigits 10 b := by
    have hd := congrArg String.data h
    simpa [Nat.repr, List.asString] using hd
  have ha := valAcc_toDigits a 0
  have hb := valAcc_toDigits b 0
  rw [hl] at ha
  omega

/-! ### Data model (src/main.py lines 1-78) -/

/-- Max players allowed in a single tee time (main.py line 1). -/
def MAX_PLAYERS_PER_TEE : ℕ := 4

/-- A course (main.py lines 27-32).  `first_time` and `last_time` are
times of day in minutes after midnight; `interval_minutes` the slot step. -/
structure Course where
  id : String
  name : String
  first_time : ℕ
  last_time : ℕ
  interval_minutes : ℕ
deriving DecidableEq, Repr

/-- The static course table entry (main.py lines 36-42):
7:00 = 420 min, 17:00 = 1020 min, every 8 minutes. -/
def sterling_hills : Course :=
  { id := "sterling_hills"
    name := "Sterling Hills Golf Club"
    first_time := 420
    last_time := 1020
    interval_minutes := 8 }

/-- The `COURSES` dict (main.py lines 35-43), as a lookup function. -/
def COURSES (course_id : String) : Option Course :=
  if course_id = "sterling_hills" then some sterling_hills else none

/-- A stored booking (main.py lines 48-56).  `date_time` is in minutes
since the epoch. -/
structure Booking where
  booking_id : String
  course_id : String
  date_time : ℕ
  players : ℕ
  holes : ℕ
  walk_ride : String
  name : String
  phone : String
deriving DecidableEq, Repr

/-- A validated `CreateBookingRequest` body (main.py lines 62-72); the
pydantic constraint `players: gt=0, le=4` is stated as a hypothesis where
a claim needs it. -/
structure CreateBookingRequest where
  course_id : String
  date_time : ℕ
  players : ℕ
  holes : ℕ
  walk_ride : String
  name : String
  phone : String
deriving DecidableEq, Repr

/-- Error outcomes (`HTTPException`s, plus the interpreter-level
`NameError` raised by the undefined `all_slots` at main.py line 123). -/
inductive ApiError where
  | notFound
  | invalidArgument
  | capacityExceeded
  | nameError
deriving DecidableEq, Repr

/-! ### The booking store -/

/-- Python dict write `BOOKINGS[b.booking_id] = b` on an insertion-ordered
dict modelled as a list: replace in place when the key is present,
append otherwise. -/
def dictInsert (st : List Booking) (b : Booking) : List Booking :=
  if st.any (fun x => x.booking_id == b.booking_id) then
    st.map (fun x => if x.booking_id == b.booking_id then b else x)
  else st ++ [b]

/-- The loop of main.py lines 156-159: total players already booked at
the exact (course_id, date_time). -/
def slotPlayers (st : List Booking) (cid : String) (dt : ℕ) : ℕ :=
  st.foldl (fun acc b =>
    if b.course_id = cid ∧ b.date_time = dt then acc + b.players else acc) 0

/-- The booking id `f"BOOK-{n}"` (main.py line 168). -/
def mkId (n : ℕ) : String := "BOOK-" ++ Nat.repr n

/-- The `Booking(booking_id=..., **req.model_dump())` construction
(main.py lines 168-173), with counter `len(BOOKINGS) + 1`. -/
def mkBooking (st : List Booking) (req : CreateBookingRequest) : Booking :=
  { booking_id := mkId (st.length + 1)
    course_id := req.course_id
    date_time := req.date_time
    players := req.players
    holes := req.holes
    walk_ride := req.walk_ride
    name := req.name
    phone := req.phone }

/-! ### Endpoints -/

/-- The while loop of `_generate_slots_for_date` (main.py lines 83-93),
with `last`/`current` absolute minute datetimes.  The loop body runs at
most `last + 1 - current` times whenever it terminates in the source
(each iteration advances `current` by `step ≥ 1`; for `current > last`
it runs zero times), so that fuel bound makes the embedding total and
faithful on every terminating source run. -/
def slotsFrom (last step : ℕ) : (fuel : ℕ) → (current : ℕ) → List ℕ
  | 0, _ => []
  | fuel + 1, current =>
    if current ≤ last then current :: slotsFrom last step fuel (current + step)
    else []

/-- `_generate_slots_for_date(course, d)` (main.py lines 83-93):
`current = datetime.combine(d, first_time)`,
`last_dt = datetime.combine(d, last_time)`, append and step by
`interval_minutes` while `current <= last_dt`. -/
def _generate_slots_for_date (course : Course) (d : ℕ) : List ℕ :=
  slotsFrom (d * 1440 + course.last_time) course.interval_minutes
    (d * 1440 + course.last_time + 1 - (d * 1440 + course.first_time))
    (d * 1440 + course.first_time)

/-- `get_availability` (main.py lines 98-143).  After the course lookup
(lines 110-111) the handler builds the local `players_by_time` dict
(lines 116-119, a pure local with no observable effect) and then, at
line 123, iterates `for dt in all_slots` — but `all_slots` is defined
nowhere in the module, so Python raises `NameError` before the capacity
filter, the time-window filter (lines 129-137) or the response (lines
139-143) are ever reached.  Hence: unknown course ⟹ `notFound`
(HTTP 404); known course ⟹ `nameError`, whatever the other arguments
and whatever the ledger contains. -/
def get_availability (st : List Booking) (course_id : String) (d : ℕ)
    (time_window : String) (players holes : ℕ) (walk_ride : String) :
    Except ApiError (List ℕ) :=
  match COURSES course_id with
  | none => .error .notFound
  | some _course => .error .nameError

/-- `create_booking` (main.py lines 147-176): 404 on unknown course,
400 when the slot total would exceed `MAX_PLAYERS_PER_TEE`, else store a
new booking under the fresh id and return it.  The returned list is the
ledger after the call (unchanged on error, exactly as the source leaves
the global `BOOKINGS` untouched when it raises). -/
def create_booking (st : List Booking) (req : CreateBookingRequest) :
    List Booking × Except ApiError Booking :=
  match COURSES req.course_id with
  | none => (st, .error .notFound)
  | some _course =>
    let current_players := slotPlayers st req.course_id req.date_time
    if MAX_PLAYERS_PER_TEE < current_players + req.players then
      (st, .error .capacityExceeded)
    else
      let booking := mkBooking st req
      (dictInsert st booking, .ok booking)

/-- `list_bookings` (main.py lines 180-186).  The Python guard
`if course_id:` is true only for a present, non-empty string. -/
def list_bookings (st : List Booking) (course_id : Option String) : List Booking :=
  match course_id with
  | some cid => if cid = "" then st else st.filter (fun b => b.course_id == cid)
  | none => st

/-- Run a sequence of `create_booking` requests against the (initially
empty) global ledger, each call seeing the state the previous one left. -/
def runCreates (reqs : List CreateBookingRequest) : List Booking :=
  reqs.foldl (fun st req => (create_booking st req).1) []

/-! ### Slot generator lemmas -/

theorem mem_slotsFrom {last step : ℕ} :
    ∀ {fuel current x : ℕ}, x ∈ slotsFrom last step fuel current →
      current ≤ x ∧ x ≤ last := by
  intro fuel
  induction fuel with
  | zero => intro current x hx; simp [slotsFrom] at hx
  | succ f ih =>
    intro current x hx
    by_cases hc : current ≤ last
    · simp only [slotsFrom, if_pos hc, List.mem_cons] at hx
      rcases hx with rfl | hx
      · exact ⟨le_refl x, hc⟩
      · have h2 := ih hx
        exact ⟨le_trans (Nat.le_add_right current step) h2.1, h2.2⟩
    · simp [slotsFrom, if_neg hc] at hx

theorem head_slotsFrom {last step fuel current x : ℕ}
    (h : (slotsFrom last step fuel current).head? = some x) : x = current := by
  cases fuel with
  | zero => simp [slotsFrom] at h
  | succ f =>
    by_cases hc : current ≤ last
    · simp only [slotsFrom, if_pos hc, List.head?_cons, Option.some.injEq] at h
      omega
    · simp [slotsFrom, if_neg hc] at h

theorem chain'_slotsFrom (last step : ℕ) :
    ∀ fuel current, List.Chain' (fun a b => b = a + step) (slotsFrom last step fuel current) := by
  intro fuel
  induction fuel with
  | zero => intro current; simp [slotsFrom]
  | succ f ih =>
    intro current
    by_cases hc : current ≤ last
    · simp only [slotsFrom, if_pos hc]
      rw [List.chain'_cons']
      exact ⟨fun y hy => head_slotsFrom hy, ih (current + step)⟩
    · simp [slotsFrom, if_neg hc]

theorem last_mem_slotsFrom (last step : ℕ) (hs : 0 < step) :
    ∀ fuel current, current ≤ last → step ∣ (last - current) →
      last + 1 - current ≤ fuel → last ∈ slotsFrom last step fuel current := by
  intro fuel
  induction fuel with
  | zero => intro current hc _ hf; omega
  | succ f ih =>
    intro current hc hdvd hf
    simp only [slotsFrom, if_pos hc, List.mem_cons]
    by_cases heq : current = last
    · exact Or.inl heq.symm
    · have hlt : current < last := lt_of_le_of_ne hc heq
      obtain ⟨k, hk⟩ := hdvd
      have hk1 : 1 ≤ k := by
        rcases Nat.eq_zero_or_pos k with rfl | h1
        · omega
        · exact h1
      have hstep_le : current + step ≤ last := by
        have : step ≤ step * k := Nat.le_mul_of_pos_right step hk1
        omega
      refine Or.inr (ih (current + step) hstep_le ?_ (by omega))
      exact ⟨k - 1, by cases k with | zero => omega | succ k => simp [Nat.mul_succ] at hk ⊢; omega⟩

theorem head_slotsFrom_start {last step first : ℕ} (h : first ≤ last) :
    (slotsFrom last step (last + 1 - first) first).head? = some first := by
  obtain ⟨k, hk⟩ : ∃ k, last + 1 - first = k + 1 := ⟨last - first, by omega⟩
  rw [hk]
  simp [slotsFrom, if_pos h]

theorem second_slotsFrom_start {last step first : ℕ} (hs : 0 < step)
    (h2 : first + step ≤ last) :
    (slotsFrom last step (last + 1 - first) first)[1]? = some (first + step) := by
  obtain ⟨k, hk⟩ : ∃ k, last + 1 - first = k + 2 := ⟨last - first - 1, by omega⟩
  rw [hk]
  have h1 : first ≤ last := by omega
  simp [slotsFrom, if_pos h1, if_pos h2]

/-- Claim C4: for every course with `first_time ≤ last_time` (and a
positive interval, as every configured course has), the generated slots
are strictly ascending, each element is the previous plus
`interval_minutes`, the first element is the opening time on that date,
no element exceeds the closing time, and the closing time is included
when it aligns with the interval; for `sterling_hills` on any date the
first slot is 07:00, the second 07:08, and 17:00 is included. -/
theorem generate_slots_properties (c : Course) (d : ℕ)
    (hle : c.first_time ≤ c.last_time) (hstep : 0 < c.interval_minutes) :
    List.Chain' (fun a b => b = a + c.interval_minutes) (_generate_slots_for_date c d) ∧
    List.Chain' (· < ·) (_generate_slots_for_date c d) ∧
    (_generate_slots_for_date c d).head? = some (d * 1440 + c.first_time) ∧
    (∀ x ∈ _generate_slots_for_date c d, x ≤ d * 1440 + c.last_time) ∧
    (c.interval_minutes ∣ c.last_time - c.first_time →
      d * 1440 + c.last_time ∈ _generate_slots_for_date c d) ∧
    (_generate_slots_for_date sterling_hills d).head? = some (d * 1440 + 420) ∧
    (_generate_slots_for_date sterling_hills d)[1]? = some (d * 1440 + 428) ∧
    d * 1440 + 1020 ∈ _generate_slots_for_date sterling_hills d := by
  refine ⟨chain'_slotsFrom _ _ _ _, ?_, ?_, ?_, ?_, ?_, ?_, ?_⟩
  · exact (chain'_slotsFrom _ _ _ _).imp (fun a b hab => by omega)
  · exact head_slotsFrom_start (by omega)
  · intro x hx; exact (mem_slotsFrom hx).2
  · intro hdvd
    apply last_mem_slotsFrom _ _ hstep _ _ (by omega) _ (le_refl _)
    have he : d * 1440 + c.last_time - (d * 1440 + c.first_time) =
        c.last_time - c.first_time := by omega
    rw [he]; exact hdvd
  · have h := @head_slotsFrom_start (d * 1440 + 1020) 8 (d * 1440 + 420) (by omega)
    simpa [_generate_slots_for_date, sterling_hills] using h
  · have h := @second_slotsFrom_start (d * 1440 + 1020) 8 (d * 1440 + 420)
      (by norm_num) (by omega)
    have he : d * 1440 + 420 + 8 = d * 1440 + 428 := by omega
    rw [he] at h
    simpa [_generate_slots_for_date, sterling_hills] using h
  · have hdvd : (8 : ℕ) ∣ (d * 1440 + 1020 - (d * 1440 + 420)) := by
      have he : d * 1440 + 1020 - (d * 1440 + 420) = 600 := by omega
      rw [he]; decide
    have h := last_mem_slotsFrom (d * 1440 + 1020) 8 (by norm_num)
      (d * 1440 + 1020 + 1 - (d * 1440 + 420)) (d * 1440 + 420) (by omega) hdvd (le_refl _)
    simpa [_generate_slots_for_date, sterling_hills] using h

theorem generate_slots_properties_witness :
    sterling_hills.first_time ≤ sterling_hills.last_time ∧
    0 < sterling_hills.interval_minutes ∧
    (_generate_slots_for_date sterling_hills 0).head? = some (0 * 1440 + 420) :=
  ⟨by decide, by decide,
    (generate_slots_properties sterling_hills 0 (by decide) (by decide)).2.2.2.2.2.1⟩

/-- Claim C7: if a course's `first_time` is after its `last_time`, the
slot generator returns the empty sequence for every date (the while
loop guard `current <= last_dt` is false at entry). -/
theorem generate_slots_empty_when_inverted (c : Course) (d : ℕ)
    (h : c.last_time < c.first_time) : _generate_slots_for_date c d = [] := by
  have hz : d * 1440 + c.last_time + 1 - (d * 1440 + c.first_time) = 0 := by omega
  simp only [_generate_slots_for_date, hz, slotsFrom]

theorem generate_slots_empty_when_inverted_witness :
    (Course.mk "late" "Late Start" 600 300 8).last_time <
      (Course.mk "late" "Late Start" 600 300 8).first_time ∧
    _generate_slots_for_date (Course.mk "late" "Late Start" 600 300 8) 0 = [] :=
  ⟨by decide, generate_slots_empty_when_inverted _ 0 (by decide)⟩

/-! ### Listing bookings -/

/-- Claim C9: `list_bookings` with no course_id returns all stored
bookings in insertion order; with a non-empty course_id it returns
exactly the bookings whose course_id matches, in the same insertion
order (an order-preserving sublist with the matching members, including
multiplicities). -/
theorem list_bookings_filter_spec (st : List Booking) (cid : String) (hne : cid ≠ "") :
    list_bookings st none = st ∧
    (list_bookings st (some cid)).Sublist st ∧
    (∀ b : Booking, b ∈ list_bookings st (some cid) ↔ b ∈ st ∧ b.course_id = cid) ∧
    (∀ b : Booking, (list_bookings st (some cid)).count b =
      if b.course_id = cid then st.count b else 0) := by
  refine ⟨rfl, ?_, ?_, ?_⟩
  · simp only [list_bookings, if_neg hne]
    exact List.filter_sublist st
  · intro b
    simp [list_bookings, if_neg hne, List.mem_filter]
  · intro b
    simp only [list_bookings, if_neg hne]
    by_cases hb : b.course_id = cid
    · rw [if_pos hb]
      exact List.count_filter (by simpa using hb)
    · rw [if_neg hb, List.count_eq_zero]
      simp [List.mem_filter, hb]

theorem list_bookings_filter_spec_witness :
    ("sterling_hills" : String) ≠ "" ∧
    list_bookings [] none = ([] : List Booking) :=
  ⟨by decide, (list_bookings_filter_spec [] "sterling_hills" (by decide)).1⟩

/-- Claim C10: `list_bookings` called with the empty string returns all
stored bookings — Python's `if course_id:` is false for `""`, so the
filter is skipped rather than matching against course `""`. -/
theorem list_bookings_empty_course_id (st : List Booking) :
    list_bookings st (some "") = st := by
  simp [list_bookings]

/-! ### Availability endpoint -/

/-- Claim C2 (refuted as stated — the code crashes): `get_availability`
for the known course (here with time_window "all", players 4, an empty
ledger, and an arbitrary concrete date) does not return the generated
slot sequence; it fails with the `NameError` raised by the undefined
`all_slots` at main.py line 123. -/
theorem availability_undefined_all_slots :
    get_availability [] "sterling_hills" 20443 "all" 4 18 "riding" =
      .error ApiError.nameError := rfl

/-- Claim C5 (refuted as stated — the code crashes first): for a known
course, `get_availability` with `time_window = "night"` does not fail
with `InvalidArgument`; the undefined `all_slots` at main.py line 123
raises `NameError` before the time-window validation at lines 129-137
is ever reached. -/
theorem availability_night_name_error :
    get_availability [] "sterling_hills" 20443 "night" 4 18 "riding" =
      .error ApiError.nameError := rfl

/-- Claim C6: for every course_id absent from the static course table,
both `get_availability` and `create_booking` fail with `NotFound`, and
`create_booking` leaves the ledger unchanged (`get_availability` never
writes the ledger: its only state access is the read at main.py
lines 117-119). -/
theorem unknown_course_not_found (st : List Booking) (cid : String) (d : ℕ)
    (tw : String) (p h : ℕ) (wr : String) (req : CreateBookingRequest)
    (hcid : COURSES cid = none) (hreq : req.course_id = cid) :
    get_availability st cid d tw p h wr = .error ApiError.notFound ∧
    (create_booking st req).2 = .error ApiError.notFound ∧
    (create_booking st req).1 = st := by
  refine ⟨?_, ?_, ?_⟩
  · simp [get_availability, hcid]
  · simp [create_booking, hreq, hcid]
  · simp [create_booking, hreq, hcid]

theorem unknown_course_not_found_witness :
    COURSES "unknown" = none ∧
    get_availability [] "unknown" 20443 "all" 4 18 "riding" = .error ApiError.notFound :=
  ⟨by decide,
    (unknown_course_not_found [] "unknown" 20443 "all" 4 18 "riding"
      (CreateBookingRequest.mk "unknown" 0 1 18 "riding" "A" "B")
      (by decide) rfl).1⟩

/-! ### Ledger invariants -/

theorem mkId_injective : Function.Injective mkId := by
  intro a b h
  have hd := congrArg String.data h
  simp only [mkId, String.data_append] at hd
  exact repr_injective (String.ext (List.append_cancel_left hd))

/-- Adding one booking at the end adds its players to exactly its own
(course_id, date_time) slot sum. -/
theorem slotPlayers_append (st : List Booking) (b : Booking) (cid : String) (dt : ℕ) :
    slotPlayers (st ++ [b]) cid dt =
      slotPlayers st cid dt +
        (if b.course_id = cid ∧ b.date_time = dt then b.players else 0) := by
  simp only [slotPlayers, List.foldl_append, List.foldl_cons, List.foldl_nil]
  by_cases hb : b.course_id = cid ∧ b.date_time = dt
  · simp [hb]
  · simp [hb]

/-- The ledger invariant maintained by `create_booking`: the stored
booking ids are exactly `BOOK-1 … BOOK-n` in insertion order. -/
def LedgerSeq (st : List Booking) : Prop :=
  st.map (fun b => b.booking_id) = (List.range st.length).map (fun i => mkId (i + 1))

theorem ledgerSeq_nil : LedgerSeq [] := rfl

theorem ledgerSeq_fresh {st : List Booking} (h : LedgerSeq st) :
    (st.any fun x => x.booking_id == mkId (st.length + 1)) = false := by
  rw [List.any_eq_false]
  intro x hx
  have hmem : x.booking_id ∈ st.map (fun b => b.booking_id) :=
    List.mem_map_of_mem _ hx
  rw [h] at hmem
  simp only [List.mem_map, List.mem_range] at hmem
  obtain ⟨i, hi, hxi⟩ := hmem
  intro hcontra
  rw [← hxi] at hcontra
  have := mkId_injective (eq_of_beq hcontra)
  omega

theorem dictInsert_fresh {st : List Booking} {b : Booking}
    (h : (st.any fun x => x.booking_id == b.booking_id) = false) :
    dictInsert st b = st ++ [b] := by
  unfold dictInsert
  rw [h]
  simp

theorem ledgerSeq_append {st : List Booking} (req : CreateBookingRequest)
    (h : LedgerSeq st) : LedgerSeq (st ++ [mkBooking st req]) := by
  unfold LedgerSeq at *
  simp only [List.map_append, List.length_append, List.map_cons, List.map_nil,
    List.length_cons, List.length_nil, List.length_singleton]
  rw [h, List.range_succ]
  simp [mkBooking]

/-- One `create_booking` call either leaves the ledger unchanged (on
`NotFound` or `CapacityExceeded`) or appends the freshly-id'd booking,
and in the latter case the capacity check passed; the sequential-id
invariant is preserved either way. -/
theorem create_booking_cases (st : List Booking) (req : CreateBookingRequest)
    (h : LedgerSeq st) :
    ((create_booking st req).1 = st ∧ LedgerSeq (create_booking st req).1) ∨
    ((create_booking st req).1 = st ++ [mkBooking st req] ∧
      LedgerSeq (create_booking st req).1 ∧
      slotPlayers st req.course_id req.date_time + req.players ≤ MAX_PLAYERS_PER_TEE) := by
  cases hc : COURSES req.course_id with
  | none =>
    have he : (create_booking st req).1 = st := by simp [create_booking, hc]
    refine Or.inl ⟨he, ?_⟩
    rw [he]
    exact h
  | some c =>
    by_cases hcap :
        MAX_PLAYERS_PER_TEE < slotPlayers st req.course_id req.date_time + req.players
    · have he : (create_booking st req).1 = st := by simp [create_booking, hc, hcap]
      refine Or.inl ⟨he, ?_⟩
      rw [he]
      exact h
    · have hd : dictInsert st (mkBooking st req) = st ++ [mkBooking st req] := by
        apply dictInsert_fresh
        have hfresh := ledgerSeq_fresh h
        simpa [mkBooking] using hfresh
      have he : (create_booking st req).1 = st ++ [mkBooking st req] := by
        simp [create_booking, hc, hcap, hd]
      refine Or.inr ⟨he, ?_, by omega⟩
      rw [he]
      exact ledgerSeq_append req h

/-- Folding any request sequence over a ledger satisfying both the
sequential-id invariant and the per-slot capacity bound preserves both. -/
theorem runCreates_invariants :
    ∀ (reqs : List CreateBookingRequest) (st : List Booking), LedgerSeq st →
      (∀ cid dt, slotPlayers st cid dt ≤ MAX_PLAYERS_PER_TEE) →
      LedgerSeq (reqs.foldl (fun s r => (create_booking s r).1) st) ∧
      ∀ cid dt, slotPlayers (reqs.foldl (fun s r => (create_booking s r).1) st) cid dt ≤
        MAX_PLAYERS_PER_TEE := by
  intro reqs
  induction reqs with
  | nil => intro st h1 h2; exact ⟨h1, h2⟩
  | cons r rs ih =>
    intro st h1 h2
    simp only [List.foldl_cons]
    rcases create_booking_cases st r h1 with ⟨heq, hseq⟩ | ⟨heq, hseq, hcap⟩
    · apply ih _ hseq
      rw [heq]
      exact h2
    · apply ih _ hseq
      intro cid dt
      rw [heq, slotPlayers_append]
      by_cases hm : (mkBooking st r).course_id = cid ∧ (mkBooking st r).date_time = dt
      · rw [if_pos hm]
        obtain ⟨hm1, hm2⟩ := hm
        simp only [mkBooking] at hm1 hm2
        rw [← hm1, ← hm2]
        simpa [mkBooking] using hcap
      · rw [if_neg hm]
        simpa using h2 cid dt

/-- Claim C1: for every sequence of `create_booking` calls starting from
the empty ledger (failed calls leave the state unchanged, so the states
reachable this way are exactly those reachable by successful calls), the
sum of `players` over the stored bookings of any fixed
(course_id, date_time) never exceeds `MAX_PLAYERS_PER_TEE = 4`. -/
theorem capacity_invariant (reqs : List CreateBookingRequest) (cid : String) (dt : ℕ) :
    slotPlayers (runCreates reqs) cid dt ≤ MAX_PLAYERS_PER_TEE :=
  (runCreates_invariants reqs [] ledgerSeq_nil
    (fun _ _ => by simp [slotPlayers])).2 cid dt

/-- Claim C8: starting from the empty ledger, the stored booking ids are
exactly the prefixed sequential counter values `BOOK-1 … BOOK-n` in
creation order — so each new id is distinct from all previously assigned
ids (the id list has no duplicates) and the underlying counter increases
monotonically along the ledger. -/
theorem booking_ids_sequential_unique (reqs : List CreateBookingRequest) :
    (runCreates reqs).map (fun b => b.booking_id) =
      (List.range (runCreates reqs).length).map (fun i => mkId (i + 1)) ∧
    ((runCreates reqs).map (fun b => b.booking_id)).Nodup := by
  have h : (runCreates reqs).map (fun b => b.booking_id) =
      (List.range (runCreates reqs).length).map (fun i => mkId (i + 1)) :=
    (runCreates_invariants reqs [] ledgerSeq_nil
      (fun _ _ => by simp [slotPlayers])).1
  refine ⟨h, ?_⟩
  rw [h]
  refine List.Nodup.map ?_ (List.nodup_range _)
  intro a b hab
  have := mkId_injective hab
  omega

/-- Claim C3: for a known course, `create_booking` fails with
`CapacityExceeded` exactly when the existing players at the same
(course_id, date_time) plus the request's players exceed 4, and on that
failure the ledger is unchanged — the rejected booking is not stored. -/
theorem create_booking_capacity_exceeded (st : List Booking)
    (req : CreateBookingRequest) (hknown : (COURSES req.course_id).isSome) :
    ((create_booking st req).2 = .error ApiError.capacityExceeded ↔
      MAX_PLAYERS_PER_TEE < slotPlayers st req.course_id req.date_time + req.players) ∧
    ((create_booking st req).2 = .error ApiError.capacityExceeded →
      (create_booking st req).1 = st) := by
  obtain ⟨c, hc⟩ := Option.isSome_iff_exists.mp hknown
  unfold create_booking
  rw [hc]
  by_cases hcap :
      MAX_PLAYERS_PER_TEE < slotPlayers st req.course_id req.date_time + req.players
  · simp [hcap]
  · simp [hcap]

theorem create_booking_capacity_exceeded_witness :
    (COURSES "sterling_hills").isSome ∧
    ((create_booking [Booking.mk "BOOK-1" "sterling_hills" 100 4 18 "riding" "A" "P"]
        (CreateBookingRequest.mk "sterling_hills" 100 1 18 "riding" "B" "Q")).2 =
          .error ApiError.capacityExceeded ↔
      MAX_PLAYERS_PER_TEE <
        slotPlayers [Booking.mk "BOOK-1" "sterling_hills" 100 4 18 "riding" "A" "P"]
          "sterling_hills" 100 + 1) :=
  ⟨by decide,
    (create_booking_capacity_exceeded
      [Booking.mk "BOOK-1" "sterling_hills" 100 4 18 "riding" "A" "P"]
      (CreateBookingRequest.mk "sterling_hills" 100 1 18 "riding" "B" "Q")
      (by decide)).1⟩
